import Mathlib

/-!
Verification of the technical-indicator scoring engine and the
rate-limited data-fetch/caching layer of the `gigglyfarts` trading-bot
repository (`src/math_bot.py`, `src/deepseek_bot.py`), as a shallow
embedding in Lean 4.

Prices, volumes and timestamps (Python floats) are modelled as rationals
`ℚ`; where the source takes a square root (`statistics.pstdev`) the
affected pipeline is modelled over the reals `ℝ`.  Fallible provider
calls are modelled by `Option`: `none` stands for a raised exception.
-/

/-! ### Python slice helper

`pySliceFrom l i` is Python's `l[i:]` for an integer index `i`:
for `i ≥ 0` it drops the first `i` elements; for `i < 0` it keeps the
last `min (-i) (length l)` elements.  (Note Python's `l[-0:] = l[0:] = l`,
which this definition reproduces since `-0 = 0 ≥ 0`.) -/
def pySliceFrom (l : List ℚ) (i : ℤ) : List ℚ :=
  if i < 0 then l.drop (l.length - (-i).toNat)
  else l.drop i.toNat

/-! ### Shared RSI pieces

`math_bot.py` lines 117-124 and `deepseek_bot.py` lines 192-199 compute
the smoothed average gain/loss pair with literally identical code, so the
embedding shares these helpers between the two files. -/

/-- `deltas = [values[i]-values[i-1] for i in range(1,len(values))]`
(`math_bot.py` line 117, `deepseek_bot.py` line 192). -/
def deltasOf (values : List ℚ) : List ℚ :=
  List.zipWith (· - ·) values.tail values

/-- The Wilder smoothing loop
`for g,l in zip(gains[period:], losses[period:]): avg_gain = (avg_gain*(period-1)+g)/period; ...`
(`math_bot.py` lines 122-124, `deepseek_bot.py` lines 197-199),
running over the zipped tails of the gain and loss lists. -/
def rsiSmooth (period : ℕ) : List (ℚ × ℚ) → ℚ × ℚ → ℚ × ℚ
  | [], acc => acc
  | (g, l) :: rest, (ag, al) =>
      rsiSmooth period rest
        ((ag * ((period : ℚ) - 1) + g) / (period : ℚ),
         (al * ((period : ℚ) - 1) + l) / (period : ℚ))

/-- The smoothed `(avg_gain, avg_loss)` pair computed by
`math_bot.py` lines 117-124 / `deepseek_bot.py` lines 192-199:
seed = simple means over the first `period` deltas, then Wilder
smoothing over the remaining deltas. -/
def rsiAvgs (values : List ℚ) (period : ℕ) : ℚ × ℚ :=
  let ds := deltasOf values
  let gains := ds.map fun d => if 0 < d then d else 0
  let losses := ds.map fun d => if d < 0 then -d else 0
  let avg_gain := (gains.take period).sum / (period : ℚ)
  let avg_loss := (losses.take period).sum / (period : ℚ)
  rsiSmooth period ((gains.drop period).zip (losses.drop period)) (avg_gain, avg_loss)

/-! ### Python `round`

Python's builtin `round(x, ndigits)` rounds half to even. -/

/-- Round a rational to the nearest integer, ties to even. -/
def roundHalfEven (x : ℚ) : ℤ :=
  let f := ⌊x⌋
  let r := x - (f : ℚ)
  if r < 1/2 then f
  else if 1/2 < r then f + 1
  else if f % 2 = 0 then f else f + 1

/-- Python `round(x, n)` on an (idealized, exact) number. -/
def pyRound (n : ℕ) (x : ℚ) : ℚ :=
  (roundHalfEven (x * (10 : ℚ) ^ n) : ℚ) / (10 : ℚ) ^ n

namespace MathBot

/-- `math_bot.py` line 28: `INTRADAY_TTL = 30  # seconds`. -/
def INTRADAY_TTL : ℚ := 30

/-- One intraday bar as built by `math_bot.py` lines 82-88
(the `"time"` string field is irrelevant to the claims and omitted). -/
structure Bar where
  close : ℚ
  high : ℚ
  low : ℚ
  volume : ℚ
deriving DecidableEq, Repr

/-- `math_bot.py` lines 103-104, the loop body of `ema`:
`for price in ...: ema_val = price * k + ema_val * (1 - k)`. -/
def emaLoop (k : ℚ) : List ℚ → ℚ → ℚ
  | [], acc => acc
  | p :: ps, acc => emaLoop k ps (p * k + acc * (1 - k))

/-- `math_bot.py` lines 98-105 (`ema`).  `values[-period:]` and
`values[-period+1:]` are Python slices, rendered by `pySliceFrom`. -/
def ema (values : List ℚ) (period : ℕ) : Option ℚ :=
  if values = [] ∨ values.length < period then none
  else
    let k : ℚ := 2 / ((period : ℚ) + 1)
    let seed : ℚ := (pySliceFrom values (-(period : ℤ))).sum / (period : ℚ)
    some (emaLoop k (pySliceFrom values (-(period : ℤ) + 1)) seed)

/-- `math_bot.py` lines 107-112 (`macd_value`). -/
def macd_value (values : List ℚ) (fast slow : ℕ) : ℚ :=
  match ema values fast, ema values slow with
  | some efast, some eslow => efast - eslow
  | _, _ => 0

/-- `math_bot.py` lines 114-128 (`rsi`). -/
def rsi (values : List ℚ) (period : ℕ) : ℚ :=
  if values.length ≤ period then 50
  else
    let p := rsiAvgs values period
    if p.2 = 0 then 100
    else 100 - 100 / (1 + p.1 / p.2)

/-- `math_bot.py` line 158: the true-range list
`trs = [max(highs[i]-lows[i], abs(highs[i]-closes[i-1]), abs(lows[i]-closes[i-1])) for i in range(1,len(data))]`,
phrased over consecutive bar pairs. -/
def trueRanges (data : List Bar) : List ℚ :=
  List.zipWith
    (fun prev cur =>
      max (cur.high - cur.low) (max |cur.high - prev.close| |cur.low - prev.close|))
    data data.tail

/-- `math_bot.py` line 159:
`atr = sum(trs[-14:])/min(14,len(trs)) if trs else 0`. -/
def atr (data : List Bar) : ℚ :=
  let trs := trueRanges data
  if trs = [] then 0
  else (pySliceFrom trs (-14)).sum / ((min 14 trs.length : ℕ) : ℚ)

/-! ### Bar cache and fetcher (`math_bot.py` lines 68-95)

The cache is modelled for one fixed symbol: `Option CacheEntry` is the
entry `INTRADAY_CACHE.get(symbol)`.  The provider (`yf.download` plus
the row parsing of lines 79-88) is modelled by a list `attempts`, one
entry per retry iteration: `none` means the body raised (network error
or malformed frame), `some bars` means the parse produced `bars`.  The
source runs `for _ in range(retries)` with `retries=3`, i.e. a list of
length 3.  The result is `(returned bars, new cache entry, number of
provider calls made)`. -/

/-- `math_bot.py` line 74: cache value `(data, ts)`. -/
structure CacheEntry where
  bars : List Bar
  ts : ℚ
deriving DecidableEq, Repr

/-- `math_bot.py` lines 77-95: the retry loop of `get_intraday_data`.
A successful iteration returns its bars at once, caching them only when
non-empty (line 89-91); a raising iteration sleeps and retries; an
exhausted loop returns `[]` (line 95). -/
def fetchLoop (cache : Option CacheEntry) (now : ℚ) :
    List (Option (List Bar)) → List Bar × Option CacheEntry × ℕ
  | [] => ([], cache, 0)
  | none :: rest =>
      let r := fetchLoop cache now rest
      (r.1, r.2.1, r.2.2 + 1)
  | some bars :: _ =>
      (bars, if bars = [] then cache else some ⟨bars, now⟩, 1)

/-- `math_bot.py` lines 70-95 (`get_intraday_data`), for one symbol. -/
def get_intraday_data (cache : Option CacheEntry) (now : ℚ)
    (attempts : List (Option (List Bar))) : List Bar × Option CacheEntry × ℕ :=
  match cache with
  | some c =>
      if now - c.ts < INTRADAY_TTL then (c.bars, some c, 0)
      else fetchLoop cache now attempts
  | none => fetchLoop cache now attempts

/-! ### Adaptive weights and composite score
(`math_bot.py` lines 184-196, inside `compute_technical_smart`)

The normalized indicator inputs live in `ℝ` because the normalizer
divides by a standard deviation (a square root); the weight arithmetic
is embedded over `ℝ` accordingly. -/

/-- `math_bot.py` lines 187-192: the dynamic weights
`(w_trend, w_rsi, w_vol, w_atr)` after renormalization by `s`. -/
noncomputable def smartWeights (trend_strength : ℝ) : ℝ × ℝ × ℝ × ℝ :=
  let w_trend : ℝ := 0.2 + 0.4 * trend_strength
  let w_rsi : ℝ := 0.5 - 0.25 * trend_strength
  let w_vol : ℝ := 0.2 - 0.05 * trend_strength
  let w_atr : ℝ := 1.0 - (w_trend + w_rsi + w_vol)
  let s := w_trend + w_rsi + w_vol + w_atr
  (w_trend / s, w_rsi / s, w_vol / s, w_atr / s)

/-- `math_bot.py` lines 195-196: the clamped weighted score
`score = macd_norm*w_trend + rsi_norm*w_rsi + vol_norm*w_vol + atr_norm*w_atr`,
`score = max(0,min(100,score))`. -/
noncomputable def compositeScore (macd_norm rsi_norm vol_norm atr_norm trend_strength : ℝ) : ℝ :=
  let w := smartWeights trend_strength
  max 0 (min 100
    (macd_norm * w.1 + rsi_norm * w.2.1 + vol_norm * w.2.2.1 + atr_norm * w.2.2.2))

/-! ### Normalizer (`math_bot.py` lines 130-142) -/

/-- `statistics.pstdev`: square root of the population variance. -/
noncomputable def pstdev (l : List ℝ) : ℝ :=
  Real.sqrt ((l.map (fun x => (x - l.sum / l.length) ^ 2)).sum / l.length)

/-- `math_bot.py` lines 130-135 (`z_clip`); `std is None` cannot occur
(the only caller passes a number), so the guard is just `std == 0`. -/
noncomputable def z_clip (x mean std clip : ℝ) : ℝ :=
  if std = 0 then 50
  else
    let z := (x - mean) / std
    let z2 := max (min z clip) (-clip)
    (z2 + clip) / (2 * clip) * 100

/-- `math_bot.py` lines 137-142 (`normalize_indicator`), with `z_clip`'s
default `clip=3`. -/
noncomputable def normalize_indicator (value : ℝ) (history : List ℝ) : ℝ :=
  if history = [] then 50
  else
    let mean := history.sum / history.length
    let stdev := if 1 < history.length then pstdev history else 0
    z_clip value mean stdev 3

end MathBot

namespace DeepseekBot

/-- `deepseek_bot.py` line 116: `TWELVE_RATE_LIMIT = 8`. -/
def TWELVE_RATE_LIMIT : ℕ := 8

/-- `deepseek_bot.py` line 117: `TWELVE_WINDOW = 61`. -/
def TWELVE_WINDOW : ℚ := 61

/-! ### Rate limiter (`deepseek_bot.py` lines 121-132)

`twelve_rate_limit` runs entirely under `_twelve_lock` (the `time.sleep`
included), so concurrent calls serialize and the whole history of the
process is one sequence of admissions.  One admission is described by an
`AdmitEvent`: `now` is the `time.time()` read at entry (line 124) and
`tAppend` the `time.time()` read at the append (line 132), after the
conditional sleep.  `validFrom` states exactly what the source
guarantees about those two reads: time is monotone, and when the pruned
list is full the append happens only after
`sleep_for = TWELVE_WINDOW - (now - _twelve_calls[0]) + 0.1` seconds
(line 128-130). -/

structure AdmitEvent where
  now : ℚ
  tAppend : ℚ
deriving DecidableEq, Repr

/-- `deepseek_bot.py` line 125:
`_twelve_calls = [t for t in _twelve_calls if now - t < TWELVE_WINDOW]`. -/
def pruneCalls (calls : List ℚ) (now : ℚ) : List ℚ :=
  calls.filter (fun t => now - t < TWELVE_WINDOW)

/-- The state update of one `twelve_rate_limit()` call: prune, then
append the post-sleep timestamp (lines 125 and 132). -/
def admitStep (calls : List ℚ) (e : AdmitEvent) : List ℚ :=
  pruneCalls calls e.now ++ [e.tAppend]

/-- Run a sequence of admissions from a given call list. -/
def runAdmits (calls : List ℚ) : List AdmitEvent → List ℚ
  | [] => calls
  | e :: es => runAdmits (admitStep calls e) es

/-- Number of recorded timestamps lying in the trailing window `(t - TWELVE_WINDOW, t]`
(the strict pruning predicate of line 125). -/
def countWithin (calls : List ℚ) (t : ℚ) : ℕ :=
  (pruneCalls calls t).length

/-- Timing facts the source guarantees for a sequence of admissions
starting from state `calls`, the previous timestamp read being `tprev`:
clock reads are monotone, and when the pruned list has at least
`TWELVE_RATE_LIMIT` entries, line 130's `time.sleep(sleep_for)` delays
the append past `oldest + TWELVE_WINDOW + 0.1`. -/
def validFrom (calls : List ℚ) (tprev : ℚ) : List AdmitEvent → Prop
  | [] => True
  | e :: es =>
      tprev ≤ e.now ∧ e.now ≤ e.tAppend ∧
      (TWELVE_RATE_LIMIT ≤ (pruneCalls calls e.now).length →
        ∀ h₀ ∈ (pruneCalls calls e.now).head?,
          h₀ + TWELVE_WINDOW + 1/10 ≤ e.tAppend) ∧
      validFrom (admitStep calls e) e.tAppend es

/-- Number of recorded call timestamps inside the trailing
`TWELVE_WINDOW`-second interval `(u - TWELVE_WINDOW, u]`. -/
def countInWindow (calls : List ℚ) (u : ℚ) : ℕ :=
  calls.countP (fun x => decide (u - TWELVE_WINDOW < x ∧ x ≤ u))

/-- The rate-limiter state invariant: recorded timestamps are sorted
oldest-first, none is in the future, and no trailing
`TWELVE_WINDOW`-second interval holds more than `TWELVE_RATE_LIMIT` of
them. -/
def RateState (calls : List ℚ) (t : ℚ) : Prop :=
  calls.Sorted (· ≤ ·) ∧ (∀ x ∈ calls, x ≤ t) ∧
    ∀ u : ℚ, countInWindow calls u ≤ TWELVE_RATE_LIMIT

/-! ### TwelveData fetcher (`deepseek_bot.py` lines 134-176) -/

/-- One bar as parsed by `deepseek_bot.py` lines 160-164 (the
`"time"` string field is irrelevant to the claims and omitted). -/
structure DBar where
  close : ℚ
  volume : ℚ
deriving DecidableEq, Repr

/-- The possible outcomes of the TwelveData HTTP call plus
`safe_json` (`deepseek_bot.py` lines 138-158): the request or parsing
raised; the JSON carried `code == 429`; the JSON was empty or had no
`"values"` key; or a well-formed `"values"` list, newest bar first. -/
inductive TDResponse where
  | exn : TDResponse
  | rateLimited : TDResponse
  | malformed : TDResponse
  | ok : List DBar → TDResponse
deriving DecidableEq, Repr

/-- `deepseek_bot.py` lines 134-170 (`fetch_twelvedata_bars`): every
failure mode maps to `[]`; a well-formed response is reversed to
oldest-first order (line 164). -/
def fetch_twelvedata_bars : TDResponse → List DBar
  | .exn => []
  | .rateLimited => []
  | .malformed => []
  | .ok values => values.reverse

/-! ### compute_technical (`deepseek_bot.py` lines 178-216) -/

/-- The record returned by `compute_technical` (lines 208-216). -/
structure Tech where
  price : ℚ
  change : ℚ
  ma5 : Option ℚ
  ma20 : Option ℚ
  rsi : Option ℚ
  volume : ℚ
  vol_change : ℚ
deriving DecidableEq, Repr

/-- `deepseek_bot.py` line 200: the RSI value of `compute_technical`
(shares the gain/loss smoothing of `rsiAvgs` with `math_bot.rsi`, but
resolves `avg_gain == 0` to `0.0` explicitly and rounds the generic
case to two decimals). -/
def dsRsiValue (closes : List ℚ) (period : ℕ) : ℚ :=
  let p := rsiAvgs closes period
  if p.2 = 0 then 100
  else if p.1 = 0 then 0
  else pyRound 2 (100 - 100 / (1 + p.1 / p.2))

/-- `deepseek_bot.py` lines 178-216 (`compute_technical`), as a function
of the fetched bar list (`get_intraday_data` composes it with the
fetcher).  `if not data: return None` is the empty-list guard. -/
def compute_technical (data : List DBar) : Option Tech :=
  if data = [] then none
  else
    let closes := data.map (·.close)
    let volumes := data.map (·.volume)
    let ma5 := if 5 ≤ closes.length then some (pyRound 2 ((pySliceFrom closes (-5)).sum / 5)) else none
    let ma20 := if 20 ≤ closes.length then some (pyRound 2 ((pySliceFrom closes (-20)).sum / 20)) else none
    let rsi := if 14 < closes.length then some (dsRsiValue closes 14) else none
    let last := closes.getLast?.getD 0
    let prev := if 1 < closes.length then (pySliceFrom closes (-2)).headI else last
    let delta := pyRound 2 (last - prev)
    let vol_last := volumes.getLast?.getD 0
    let avg_vol30 := if 30 ≤ volumes.length then (pySliceFrom volumes (-30)).sum / 30 else vol_last
    let vol_change := if avg_vol30 = 0 then 0 else pyRound 1 ((vol_last - avg_vol30) / avg_vol30 * 100)
    some ⟨pyRound 2 last, delta, ma5, ma20, rsi, vol_last, vol_change⟩

/-! ### Summary builder (`deepseek_bot.py` lines 219-243)

The per-ticker work inside the `try` (the `compute_technical` call, the
falsy test, and the construction of the summary dict including the
news/analyst/social fetches) is modelled by a per-ticker outcome: it
raised, produced a falsy (`None`) technical record, or produced a
technical record from which a summary is built. -/

inductive EvalOutcome (τ : Type) where
  | exn : EvalOutcome τ
  | insufficient : EvalOutcome τ
  | ok : τ → EvalOutcome τ
deriving DecidableEq

def EvalOutcome.isOk {τ : Type} : EvalOutcome τ → Bool
  | .ok _ => true
  | _ => false

/-- `deepseek_bot.py` lines 219-243 (`get_stock_summary`): iterate the
tickers in order; an exception is caught and logged (the summary list is
untouched); a falsy technical record hits `continue`; otherwise one
summary is appended. -/
def get_stock_summary {σ τ υ : Type} (eval : σ → EvalOutcome τ)
    (build : σ → τ → υ) : List σ → List υ
  | [] => []
  | t :: ts =>
      match eval t with
      | .ok tech => build t tech :: get_stock_summary eval build ts
      | _ => get_stock_summary eval build ts

/-- A tiny concrete per-ticker evaluation used to instantiate the
summary-builder theorems: ticker `0` raises, ticker `1` has
insufficient data, any other ticker succeeds. -/
def evalSample : ℕ → EvalOutcome ℕ :=
  fun n => if n = 0 then .exn else if n = 1 then .insufficient else .ok n

/-- A tiny concrete summary constructor for the same purpose. -/
def buildSample : ℕ → ℕ → ℕ := fun _ x => x

end DeepseekBot

/-! ### Reference definitions taken from the spec's words (for
refinement comparisons), not from the source. -/

/-- The EMA recurrence exactly as §4.3 of the spec words it: "seed =
simple average of the first `period` values; then iteratively apply
`value * k + prev * (1-k)` with `k = 2/(period+1)` over the remaining
values in chronological order; undefined if fewer than `period` values
exist". -/
def emaSpecRef (values : List ℚ) (period : ℕ) : Option ℚ :=
  if values.length < period then none
  else
    let k : ℚ := 2 / ((period : ℚ) + 1)
    some ((values.drop period).foldl
      (fun prev v => v * k + prev * (1 - k))
      ((values.take period).sum / (period : ℚ)))

/-! ## Theorems -/

section EmaTheorems

open MathBot

/-- `emaLoop` is a left fold of the update step. -/
lemma emaLoop_eq_foldl (k : ℚ) (l : List ℚ) (acc : ℚ) :
    emaLoop k l acc = l.foldl (fun prev v => v * k + prev * (1 - k)) acc := by
  induction l generalizing acc with
  | nil => simp [emaLoop]
  | cons p ps ih => simp [emaLoop, ih]

/-- C7 counterexample: on closes `[0, 0, 6]` with period 2 the code's
`ema` (seeded with the average of the *last* two values) gives `5`,
while the spec's recurrence (seeded with the average of the *first* two
values) gives `4`. -/
theorem ema_seed_counterexample :
    ema [0, 0, 6] 2 = some 5 ∧ emaSpecRef [0, 0, 6] 2 = some 4 ∧
      ema [0, 0, 6] 2 ≠ emaSpecRef [0, 0, 6] 2 := by
  refine ⟨?_, ?_, ?_⟩
  · simp [ema, pySliceFrom, emaLoop]
    norm_num
  · simp [emaSpecRef]
    norm_num
  · simp [ema, emaSpecRef, pySliceFrom, emaLoop]
    norm_num

/-- C7 amended: for `2 ≤ period ≤ |values|`, `ema` seeds with the
simple average of the **last** `period` values and then applies
`value * k + prev * (1-k)`, `k = 2/(period+1)`, over the **last
`period - 1`** values in chronological order; it returns `none` when
fewer than `period` values exist. -/
theorem ema_amended (values : List ℚ) (period : ℕ) :
    (values.length < period → ema values period = none) ∧
    (2 ≤ period → period ≤ values.length →
      ema values period =
        some ((values.drop (values.length - (period - 1))).foldl
          (fun prev v => v * (2 / ((period : ℚ) + 1)) + prev * (1 - 2 / ((period : ℚ) + 1)))
          ((values.drop (values.length - period)).sum / (period : ℚ)))) := by
  constructor
  · intro h
    simp [ema, h]
  · intro h2 hlen
    have hne : values ≠ [] := by
      intro h; subst h; simp at hlen; omega
    have hslice1 : pySliceFrom values (-(period : ℤ)) = values.drop (values.length - period) := by
      simp only [pySliceFrom]
      rw [if_pos (by omega : -(period : ℤ) < 0)]
      congr 1
      omega
    have hslice2 : pySliceFrom values (-(period : ℤ) + 1) =
        values.drop (values.length - (period - 1)) := by
      simp only [pySliceFrom]
      rw [if_pos (by omega : -(period : ℤ) + 1 < 0)]
      congr 1
      omega
    rw [ema, if_neg (by simp [hne]; omega)]
    simp only [hslice1, hslice2, emaLoop_eq_foldl]

/-- Witness for `ema_amended` at `values = [1, 2, 3]`, `period = 2`. -/
theorem ema_amended_witness :
    ((2 ≤ 2 ∧ 2 ≤ ([1, 2, 3] : List ℚ).length) ∧
      ema [1, 2, 3] 2 =
        some ((([1, 2, 3] : List ℚ).drop (3 - (2 - 1))).foldl
          (fun prev v => v * (2 / ((2 : ℚ) + 1)) + prev * (1 - 2 / ((2 : ℚ) + 1)))
          ((([1, 2, 3] : List ℚ).drop (3 - 2)).sum / (2 : ℚ)))) :=
  ⟨⟨by norm_num, by norm_num⟩, (ema_amended [1, 2, 3] 2).2 (by norm_num) (by norm_num)⟩

end EmaTheorems

section InsufficientDataTheorems

open MathBot DeepseekBot

/-- C4 counterexample: on a 3-close sequence (fewer than the period for
every indicator concerned), `rsi` returns the number 50 (not
undefined), `macd_value` returns 0 as a silent default, and the ATR of
a single bar is the silent default 0. -/
theorem insufficient_default_counterexample :
    rsi [1, 2, 3] 14 = 50 ∧ macd_value [1, 2, 3] 12 26 = 0 ∧
      atr [⟨1, 1, 1, 1⟩] = 0 := by
  refine ⟨?_, ?_, ?_⟩
  · simp [rsi]
  · simp [macd_value, ema]
  · simp [atr, trueRanges]

/-- C4 amended: with fewer than `period` values `ema` (and deepseek's
`ma5`/`ma20`/`rsi` fields) return `None` and never raise; but
`math_bot.rsi` returns the neutral value 50 whenever at most `period`
closes exist, `macd_value` returns 0 whenever either EMA is undefined,
and the inline ATR returns 0 when no true range exists. -/
theorem insufficient_data_amended :
    (∀ (values : List ℚ) (period : ℕ), values.length < period →
      ema values period = none) ∧
    (∀ (values : List ℚ) (period : ℕ), values.length ≤ period →
      rsi values period = 50) ∧
    (∀ (values : List ℚ) (fast slow : ℕ),
      ema values fast = none ∨ ema values slow = none →
      macd_value values fast slow = 0) ∧
    (∀ data : List Bar, trueRanges data = [] → atr data = 0) ∧
    (∀ data : List DBar, data ≠ [] → data.length < 5 →
      ∃ t, compute_technical data = some t ∧
        t.ma5 = none ∧ t.ma20 = none ∧ t.rsi = none) := by
  refine ⟨?_, ?_, ?_, ?_, ?_⟩
  · intro values period h
    simp [ema, h]
  · intro values period h
    simp [rsi, h]
  · intro values fast slow h
    rcases h with h | h <;> simp [macd_value, h]
  · intro data h
    simp [atr, h]
  · intro data hne hlen
    simp only [compute_technical, if_neg hne]
    refine ⟨_, rfl, ?_, ?_, ?_⟩ <;>
      · simp only [List.length_map]
        rw [if_neg (by omega)]

/-- Witness for `insufficient_data_amended` at `values = [1, 2, 3]`,
`period = 14`. -/
theorem insufficient_data_amended_witness :
    (([1, 2, 3] : List ℚ).length ≤ 14) ∧ rsi [1, 2, 3] 14 = 50 :=
  ⟨by norm_num, insufficient_data_amended.2.1 [1, 2, 3] 14 (by norm_num)⟩

end InsufficientDataTheorems

section NormalizerTheorems

open MathBot

/-- `z_clip` with the default clip 3 always lands in `[0, 100]`,
whatever the mean and standard deviation are. -/
lemma z_clip_bounds (x mean std : ℝ) :
    0 ≤ z_clip x mean std 3 ∧ z_clip x mean std 3 ≤ 100 := by
  unfold z_clip
  by_cases h : std = 0
  · rw [if_pos h]
    norm_num
  · rw [if_neg h]
    set z := (x - mean) / std with hz
    have h1 : -3 ≤ max (min z 3) (-3) := le_max_right _ _
    have h2 : max (min z 3) (-3) ≤ 3 := max_le (min_le_right _ _) (by norm_num)
    constructor
    · have : (0:ℝ) ≤ max (min z 3) (-3) + 3 := by linarith
      positivity
    · rw [div_mul_eq_mul_div, div_le_iff₀ (by norm_num : (0:ℝ) < 2 * 3)]
      nlinarith

/-- C5: `normalize_indicator` returns 50 on an empty history; returns 50
whenever the history's population standard deviation is 0 (so in
particular on the constant history `[1,1,1,1,1]`); and its output is
always within `[0, 100]`. -/
theorem normalize_indicator_spec :
    (∀ v : ℝ, normalize_indicator v [] = 50) ∧
    (∀ (v : ℝ) (h : List ℝ), pstdev h = 0 → normalize_indicator v h = 50) ∧
    (∀ (v : ℝ) (h : List ℝ),
      0 ≤ normalize_indicator v h ∧ normalize_indicator v h ≤ 100) := by
  refine ⟨?_, ?_, ?_⟩
  · intro v
    simp [normalize_indicator]
  · intro v h hstd
    unfold normalize_indicator
    by_cases he : h = []
    · rw [if_pos he]
    · rw [if_neg he]
      by_cases hlen : 1 < h.length
      · rw [if_pos hlen, hstd]
        unfold z_clip
        rw [if_pos rfl]
      · rw [if_neg hlen]
        unfold z_clip
        rw [if_pos rfl]
  · intro v h
    unfold normalize_indicator
    by_cases he : h = []
    · rw [if_pos he]
      norm_num
    · rw [if_neg he]
      exact z_clip_bounds _ _ _

/-- Witness for `normalize_indicator_spec` on the constant history
`[1,1,1,1,1]` with raw value 1, whose population standard deviation
evaluates to 0. -/
theorem normalize_indicator_spec_witness :
    pstdev [1, 1, 1, 1, 1] = 0 ∧ normalize_indicator (1 : ℝ) [1, 1, 1, 1, 1] = 50 := by
  have h : pstdev [1, 1, 1, 1, 1] = 0 := by
    unfold pstdev
    norm_num
  exact ⟨h, normalize_indicator_spec.2.1 1 [1, 1, 1, 1, 1] h⟩

end NormalizerTheorems

section WeightTheorems

open MathBot

/-- The renormalized adaptive weights sum to exactly 1 (the
pre-normalization sum `s` is already identically 1, as `w_atr` is
defined as the complement of the other three). -/
lemma smartWeights_sum (ts : ℝ) :
    (smartWeights ts).1 + (smartWeights ts).2.1 + (smartWeights ts).2.2.1 +
      (smartWeights ts).2.2.2 = 1 := by
  simp only [smartWeights]
  rw [div_add_div_same, div_add_div_same, div_add_div_same]
  exact div_self (by ring_nf; norm_num)

/-- C9: for every trend-strength value in `[0,1]`, the four adaptive
weights sum to 1 within `1e-6` after renormalization, and the composite
score is clamped into `[0, 100]` for all normalized inputs. -/
theorem smart_weights_and_score_spec (ts : ℝ) (_h0 : 0 ≤ ts) (_h1 : ts ≤ 1) :
    |(smartWeights ts).1 + (smartWeights ts).2.1 + (smartWeights ts).2.2.1 +
        (smartWeights ts).2.2.2 - 1| ≤ 1 / 1000000 ∧
    ∀ m r v a : ℝ,
      0 ≤ compositeScore m r v a ts ∧ compositeScore m r v a ts ≤ 100 := by
  constructor
  · rw [smartWeights_sum]
    norm_num
  · intro m r v a
    unfold compositeScore
    constructor
    · exact le_max_left 0 _
    · exact max_le (by norm_num) (min_le_left _ _)

/-- Witness for `smart_weights_and_score_spec` at trend strength 1/2. -/
theorem smart_weights_and_score_spec_witness :
    ((0 : ℝ) ≤ 1 / 2 ∧ (1 / 2 : ℝ) ≤ 1) ∧
    (|(smartWeights (1 / 2)).1 + (smartWeights (1 / 2)).2.1 +
        (smartWeights (1 / 2)).2.2.1 + (smartWeights (1 / 2)).2.2.2 - 1| ≤ 1 / 1000000 ∧
      ∀ m r v a : ℝ,
        0 ≤ compositeScore m r v a (1 / 2) ∧ compositeScore m r v a (1 / 2) ≤ 100) :=
  ⟨⟨by norm_num, by norm_num⟩,
    smart_weights_and_score_spec (1 / 2) (by norm_num) (by norm_num)⟩

end WeightTheorems

section RsiTheorems

open MathBot

/-- Every element of the gain list is non-negative. -/
lemma gains_nonneg (values : List ℚ) :
    ∀ x ∈ (deltasOf values).map (fun d => if 0 < d then d else 0), (0:ℚ) ≤ x := by
  intro x hx
  obtain ⟨d, _, rfl⟩ := List.mem_map.1 hx
  split_ifs with h
  · exact le_of_lt h
  · exact le_refl 0

/-- Every element of the loss list is non-negative. -/
lemma losses_nonneg (values : List ℚ) :
    ∀ x ∈ (deltasOf values).map (fun d => if d < 0 then -d else 0), (0:ℚ) ≤ x := by
  intro x hx
  obtain ⟨d, _, rfl⟩ := List.mem_map.1 hx
  split_ifs with h
  · linarith
  · exact le_refl 0

/-- Wilder smoothing preserves non-negativity of both running averages
when fed non-negative gains and losses. -/
lemma rsiSmooth_nonneg (period : ℕ) (hp : 1 ≤ period) (l : List (ℚ × ℚ)) :
    ∀ acc : ℚ × ℚ, (∀ p ∈ l, 0 ≤ p.1 ∧ 0 ≤ p.2) → 0 ≤ acc.1 → 0 ≤ acc.2 →
      0 ≤ (rsiSmooth period l acc).1 ∧ 0 ≤ (rsiSmooth period l acc).2 := by
  induction l with
  | nil =>
      intro acc _ h1 h2
      exact ⟨h1, h2⟩
  | cons p rest ih =>
      intro acc hmem h1 h2
      obtain ⟨g, lo⟩ := p
      obtain ⟨ag, al⟩ := acc
      have hg : (0:ℚ) ≤ g := (hmem (g, lo) (by simp)).1
      have hl : (0:ℚ) ≤ lo := (hmem (g, lo) (by simp)).2
      have hper : (1:ℚ) ≤ (period : ℚ) := by exact_mod_cast hp
      simp only [rsiSmooth]
      apply ih
      · intro q hq
        exact hmem q (List.mem_cons_of_mem _ hq)
      · apply div_nonneg _ (by linarith)
        have hp1 : (0:ℚ) ≤ (period : ℚ) - 1 := by linarith
        simp only at h1
        nlinarith
      · apply div_nonneg _ (by linarith)
        have hp1 : (0:ℚ) ≤ (period : ℚ) - 1 := by linarith
        simp only at h2
        nlinarith

/-- Both smoothed averages produced by `rsiAvgs` are non-negative. -/
lemma rsiAvgs_nonneg (values : List ℚ) (period : ℕ) (hp : 1 ≤ period) :
    0 ≤ (rsiAvgs values period).1 ∧ 0 ≤ (rsiAvgs values period).2 := by
  unfold rsiAvgs
  apply rsiSmooth_nonneg period hp
  · intro p hp'
    obtain ⟨hg, hl⟩ := List.of_mem_zip hp'
    exact ⟨gains_nonneg values _ (List.mem_of_mem_drop hg),
           losses_nonneg values _ (List.mem_of_mem_drop hl)⟩
  · exact div_nonneg
      (List.sum_nonneg fun x hx => gains_nonneg values x (List.mem_of_mem_take hx))
      (by positivity)
  · exact div_nonneg
      (List.sum_nonneg fun x hx => losses_nonneg values x (List.mem_of_mem_take hx))
      (by positivity)

/-- The shape of `rsi` when enough closes exist. -/
lemma rsi_eq_of_lt (values : List ℚ) (period : ℕ) (h : period < values.length) :
    rsi values period =
      if (rsiAvgs values period).2 = 0 then 100
      else 100 - 100 / (1 + (rsiAvgs values period).1 / (rsiAvgs values period).2) := by
  rw [rsi, if_neg (by omega)]

/-- C1: with at least `period+1 = 15` closes, `rsi` (a pure function of
the closes) always lies in `[0, 100]`; it returns 100 exactly when the
smoothed average loss is 0; returns 0 when the average loss is positive
and the smoothed average gain is 0; and otherwise returns
`100 - 100/(1 + avg_gain/avg_loss)` for the Wilder-smoothed averages. -/
theorem rsi_range_and_formula (values : List ℚ) (h : 15 ≤ values.length) :
    (0 ≤ rsi values 14 ∧ rsi values 14 ≤ 100) ∧
    ((rsiAvgs values 14).2 = 0 → rsi values 14 = 100) ∧
    (0 < (rsiAvgs values 14).2 → (rsiAvgs values 14).1 = 0 → rsi values 14 = 0) ∧
    ((rsiAvgs values 14).2 ≠ 0 →
      rsi values 14 = 100 - 100 / (1 + (rsiAvgs values 14).1 / (rsiAvgs values 14).2)) := by
  have h14 : (14:ℕ) < values.length := by omega
  have heq := rsi_eq_of_lt values 14 h14
  obtain ⟨hga, hla⟩ := rsiAvgs_nonneg values 14 (by norm_num)
  refine ⟨?_, ?_, ?_, ?_⟩
  · by_cases hz : (rsiAvgs values 14).2 = 0
    · rw [heq, if_pos hz]
      norm_num
    · rw [heq, if_neg hz]
      have hlpos : 0 < (rsiAvgs values 14).2 := lt_of_le_of_ne hla (Ne.symm hz)
      have hrs : 0 ≤ (rsiAvgs values 14).1 / (rsiAvgs values 14).2 := div_nonneg hga hla
      have hd : (0:ℚ) < 1 + (rsiAvgs values 14).1 / (rsiAvgs values 14).2 := by linarith
      have h2 : 100 / (1 + (rsiAvgs values 14).1 / (rsiAvgs values 14).2) ≤ 100 := by
        rw [div_le_iff₀ hd]
        nlinarith
      have h3 : 0 < 100 / (1 + (rsiAvgs values 14).1 / (rsiAvgs values 14).2) := by
        positivity
      constructor <;> linarith
  · intro hz
    rw [heq, if_pos hz]
  · intro hpos hg0
    rw [heq, if_neg (ne_of_gt hpos), hg0]
    norm_num
  · intro hz
    rw [heq, if_neg hz]

/-- Witness for `rsi_range_and_formula` on 15 strictly increasing
closes (all gains, no losses). -/
theorem rsi_range_and_formula_witness :
    (15 ≤ ([1, 2, 3, 4, 5, 6, 7, 8, 9, 10, 11, 12, 13, 14, 15] : List ℚ).length) ∧
    (0 ≤ rsi [1, 2, 3, 4, 5, 6, 7, 8, 9, 10, 11, 12, 13, 14, 15] 14 ∧
      rsi [1, 2, 3, 4, 5, 6, 7, 8, 9, 10, 11, 12, 13, 14, 15] 14 ≤ 100) ∧
    rsi [1, 2, 3, 4, 5, 6, 7, 8, 9, 10, 11, 12, 13, 14, 15] 14 = 100 := by
  have hlen : 15 ≤ ([1, 2, 3, 4, 5, 6, 7, 8, 9, 10, 11, 12, 13, 14, 15] : List ℚ).length := by
    norm_num
  have hmain := rsi_range_and_formula [1, 2, 3, 4, 5, 6, 7, 8, 9, 10, 11, 12, 13, 14, 15] hlen
  have hloss : (rsiAvgs [1, 2, 3, 4, 5, 6, 7, 8, 9, 10, 11, 12, 13, 14, 15] 14).2 = 0 := by
    simp [rsiAvgs, deltasOf, rsiSmooth]
    norm_num
  exact ⟨hlen, hmain.1, hmain.2.1 hloss⟩

end RsiTheorems

section CacheTheorems

open MathBot

/-- When every retry iteration raises, the loop returns the empty bar
list, leaves the cache untouched, and has made one provider call per
iteration. -/
lemma fetchLoop_all_none (cache : Option CacheEntry) (now : ℚ)
    (attempts : List (Option (List Bar))) (h : ∀ a ∈ attempts, a = none) :
    fetchLoop cache now attempts = ([], cache, attempts.length) := by
  induction attempts with
  | nil => rfl
  | cons a rest ih =>
      have ha : a = none := h a (by simp)
      subst ha
      have := ih (fun a' ha' => h a' (List.mem_cons_of_mem _ ha'))
      simp [fetchLoop, this]

/-- C3 counterexample: with a stale cached bar sequence `[b]` present
and every retry raising, `get_intraday_data` returns the empty list,
not the cached (stale) value `[b]` the claim promises. -/
theorem stale_fallback_counterexample :
    (get_intraday_data (some ⟨[⟨1, 1, 1, 1⟩], 0⟩) 100 [none, none, none]).1 = [] ∧
    ([⟨1, 1, 1, 1⟩] : List Bar) ≠ [] := by
  constructor
  · rw [get_intraday_data]
    rw [if_neg (by norm_num [INTRADAY_TTL])]
    rw [fetchLoop_all_none _ _ _ (by simp)]
  · simp

/-- C3 amended: the fetcher never raises (it is a total function into
bar lists); when no fresh cache entry exists and every retry fails it
returns the **empty** sequence, leaving any (stale) cache entry in
place but not returning it; and `deepseek_bot`'s fetcher maps every
failure mode to the empty sequence as well. -/
theorem fetch_failure_amended :
    (∀ (cache : Option CacheEntry) (now : ℚ)
        (attempts : List (Option (List Bar))),
      (∀ a ∈ attempts, a = none) →
      (∀ c, cache = some c → INTRADAY_TTL ≤ now - c.ts) →
      get_intraday_data cache now attempts = ([], cache, attempts.length)) ∧
    (∀ r : DeepseekBot.TDResponse, (∀ v, r ≠ DeepseekBot.TDResponse.ok v) →
      DeepseekBot.fetch_twelvedata_bars r = []) := by
  constructor
  · intro cache now attempts hfail hstale
    match cache with
    | none =>
        rw [get_intraday_data]
        exact fetchLoop_all_none _ _ _ hfail
    | some c =>
        rw [get_intraday_data]
        rw [if_neg (by have := hstale c rfl; linarith)]
        exact fetchLoop_all_none _ _ _ hfail
  · intro r hr
    match r with
    | .exn => rfl
    | .rateLimited => rfl
    | .malformed => rfl
    | .ok v => exact absurd rfl (hr v)

/-- Witness for `fetch_failure_amended`: a stale entry cached at time 0,
queried at time 100 with all three retries raising. -/
theorem fetch_failure_amended_witness :
    ((∀ a ∈ ([none, none, none] : List (Option (List Bar))), a = none) ∧
      (∀ c, (some ⟨[⟨1, 1, 1, 1⟩], 0⟩ : Option CacheEntry) = some c →
        INTRADAY_TTL ≤ 100 - c.ts)) ∧
    get_intraday_data (some ⟨[⟨1, 1, 1, 1⟩], 0⟩) 100 [none, none, none] =
      ([], some ⟨[⟨1, 1, 1, 1⟩], 0⟩, 3) :=
  ⟨⟨by simp, by rintro c ⟨rfl⟩; norm_num [INTRADAY_TTL]⟩,
    fetch_failure_amended.1 (some ⟨[⟨1, 1, 1, 1⟩], 0⟩) 100 [none, none, none]
      (by simp) (by rintro c ⟨rfl⟩; norm_num [INTRADAY_TTL])⟩

/-- C6 counterexample: the fetch succeeds but parses zero bars, so
nothing is cached; two calls 10 seconds apart (well within
`INTRADAY_TTL = 30`) each make a provider call — two network fetches,
and the second call does not return from cache. -/
theorem single_fetch_counterexample :
    (get_intraday_data none 0 [some [], none, none]).2.2 = 1 ∧
    (get_intraday_data
        ((get_intraday_data none 0 [some [], none, none]).2.1) 10
        [some [], none, none]).2.2 = 1 := by
  constructor <;> simp [get_intraday_data, fetchLoop]

/-- C6 amended: two `get_bars` calls less than TTL apart trigger
exactly one network fetch **provided** the first call finds no cache
entry and its first attempt succeeds with a non-empty bar sequence: the
first call fetches once and caches, and the second call returns the
cached bars with zero provider calls. -/
theorem single_fetch_amended (t1 t2 : ℚ) (bars : List Bar)
    (rest attempts2 : List (Option (List Bar)))
    (hb : bars ≠ []) (hTTL : t2 - t1 < INTRADAY_TTL) :
    get_intraday_data none t1 (some bars :: rest) = (bars, some ⟨bars, t1⟩, 1) ∧
    get_intraday_data (some ⟨bars, t1⟩) t2 attempts2 = (bars, some ⟨bars, t1⟩, 0) := by
  constructor
  · rw [get_intraday_data]
    simp [fetchLoop, hb]
  · rw [get_intraday_data]
    rw [if_pos hTTL]

/-- Witness for `single_fetch_amended`: one bar fetched at time 0,
second call at time 10. -/
theorem single_fetch_amended_witness :
    (([⟨1, 1, 1, 1⟩] : List Bar) ≠ [] ∧ (10 : ℚ) - 0 < INTRADAY_TTL) ∧
    (get_intraday_data none 0 [some [⟨1, 1, 1, 1⟩], none, none] =
        ([⟨1, 1, 1, 1⟩], some ⟨[⟨1, 1, 1, 1⟩], 0⟩, 1) ∧
      get_intraday_data (some ⟨[⟨1, 1, 1, 1⟩], 0⟩) 10 [some [⟨1, 1, 1, 1⟩], none, none] =
        ([⟨1, 1, 1, 1⟩], some ⟨[⟨1, 1, 1, 1⟩], 0⟩, 0)) :=
  ⟨⟨by simp, by norm_num [INTRADAY_TTL]⟩,
    single_fetch_amended 0 10 [⟨1, 1, 1, 1⟩] [none, none] [some [⟨1, 1, 1, 1⟩], none, none]
      (by simp) (by norm_num [INTRADAY_TTL])⟩

/-- The retry loop stores only non-empty bar lists. -/
lemma fetchLoop_nonempty (cache : Option CacheEntry) (now : ℚ)
    (attempts : List (Option (List Bar)))
    (hc : ∀ c, cache = some c → c.bars ≠ []) :
    ∀ c', (fetchLoop cache now attempts).2.1 = some c' → c'.bars ≠ [] := by
  induction attempts with
  | nil => exact hc
  | cons a rest ih =>
      intro c' hc'
      match a with
      | none => exact ih c' hc'
      | some bars =>
          by_cases hb : bars = []
          · simp only [fetchLoop, if_pos hb] at hc'
            exact hc c' hc'
          · simp only [fetchLoop, if_neg hb] at hc'
            rw [← Option.some_inj.1 hc']
            exact hb

/-- C10: the intraday cache only ever holds non-empty bar sequences: a
fetch that parses zero bars leaves the cache unchanged, and a later
call with a still-absent cache entry performs a fresh provider call no
matter how soon it happens. -/
theorem cache_nonempty_spec :
    (∀ (cache : Option CacheEntry) (now : ℚ)
        (attempts : List (Option (List Bar))),
      (∀ c, cache = some c → c.bars ≠ []) →
      ∀ c', (get_intraday_data cache now attempts).2.1 = some c' → c'.bars ≠ []) ∧
    (∀ (now : ℚ) (rest : List (Option (List Bar))),
      get_intraday_data none now (some [] :: rest) = ([], none, 1)) ∧
    (∀ (now : ℚ) (a : Option (List Bar)) (rest : List (Option (List Bar))),
      1 ≤ (get_intraday_data none now (a :: rest)).2.2) := by
  refine ⟨?_, ?_, ?_⟩
  · intro cache now attempts hc
    match cache with
    | none =>
        rw [get_intraday_data]
        exact fetchLoop_nonempty _ _ _ hc
    | some c =>
        rw [get_intraday_data]
        split
        · intro c' hc'
          rw [← Option.some_inj.1 hc']
          exact hc c rfl
        · exact fetchLoop_nonempty _ _ _ hc
  · intro now rest
    rw [get_intraday_data]
    simp [fetchLoop]
  · intro now a rest
    rw [get_intraday_data]
    match a with
    | none => simp [fetchLoop]
    | some bars => simp [fetchLoop]

/-- Witness for `cache_nonempty_spec`: starting from an empty cache,
a successful non-empty fetch at time 0 stores a non-empty entry. -/
theorem cache_nonempty_spec_witness :
    (∀ c, (none : Option CacheEntry) = some c → c.bars ≠ []) ∧
    (∀ c', (get_intraday_data none 0 [some [⟨1, 1, 1, 1⟩], none, none]).2.1 = some c' →
      c'.bars ≠ []) :=
  ⟨by simp, cache_nonempty_spec.1 none 0 [some [⟨1, 1, 1, 1⟩], none, none] (by simp)⟩

end CacheTheorems

section SummaryTheorems

open DeepseekBot

/-- C8: the summary builder returns exactly one summary per ticker
whose evaluation succeeded, in input order (it equals a `filterMap`
over the input list); its length is the number of succeeding tickers;
and a ticker whose evaluation raises is simply skipped — the remaining
tickers are processed exactly as if it were absent. -/
theorem summary_builder_spec {σ τ υ : Type} (eval : σ → EvalOutcome τ)
    (build : σ → τ → υ) :
    (∀ tickers : List σ,
      get_stock_summary eval build tickers =
        tickers.filterMap fun t =>
          match eval t with
          | .ok tech => some (build t tech)
          | _ => none) ∧
    (∀ tickers : List σ,
      (get_stock_summary eval build tickers).length =
        (tickers.filter fun t => (eval t).isOk).length) ∧
    (∀ (l₁ l₂ : List σ) (t : σ), eval t = .exn →
      get_stock_summary eval build (l₁ ++ t :: l₂) =
        get_stock_summary eval build (l₁ ++ l₂)) := by
  refine ⟨?_, ?_, ?_⟩
  · intro tickers
    induction tickers with
    | nil => rfl
    | cons t ts ih =>
        rw [get_stock_summary]
        match h : eval t with
        | .ok tech => simp [List.filterMap_cons, h, ih]
        | .exn => simp [List.filterMap_cons, h, ih]
        | .insufficient => simp [List.filterMap_cons, h, ih]
  · intro tickers
    induction tickers with
    | nil => rfl
    | cons t ts ih =>
        rw [get_stock_summary]
        match h : eval t with
        | .ok tech => simp [List.filter_cons, h, ih, EvalOutcome.isOk]
        | .exn => simp [List.filter_cons, h, ih, EvalOutcome.isOk]
        | .insufficient => simp [List.filter_cons, h, ih, EvalOutcome.isOk]
  · intro l₁ l₂ t ht
    induction l₁ with
    | nil =>
        simp only [List.nil_append]
        rw [get_stock_summary, ht]
    | cons s rest ih =>
        simp only [List.cons_append]
        rw [get_stock_summary, get_stock_summary]
        match h : eval s with
        | .ok tech => rw [ih]
        | .exn => exact ih
        | .insufficient => exact ih

/-- Witness for `summary_builder_spec` on the sample evaluation:
ticker 0 raises, and the batch `[2, 0, 3]` yields the same summaries
as `[2, 3]` — the raising ticker does not terminate the batch. -/
theorem summary_builder_spec_witness :
    evalSample 0 = .exn ∧
    get_stock_summary evalSample buildSample ([2] ++ 0 :: [3]) =
      get_stock_summary evalSample buildSample ([2] ++ [3]) :=
  ⟨by simp [evalSample], (summary_builder_spec evalSample buildSample).2.2 [2] [3] 0
    (by simp [evalSample])⟩

end SummaryTheorems

section RateLimiterTheorems

open DeepseekBot

/-- Pruning keeps a sublist, so it cannot increase any window count. -/
lemma countInWindow_prune_le (calls : List ℚ) (t u : ℚ) :
    countInWindow (pruneCalls calls t) u ≤ countInWindow calls u :=
  List.Sublist.countP_le _ (List.filter_sublist calls)

/-- A window count never exceeds the list length. -/
lemma countInWindow_le_length (calls : List ℚ) (u : ℚ) :
    countInWindow calls u ≤ calls.length :=
  List.countP_le_length _

/-- When no timestamp is in the future, the pruned list is no longer
than the count of the window ending now. -/
lemma pruneCalls_length_le (calls : List ℚ) (now : ℚ)
    (h : ∀ x ∈ calls, x ≤ now) :
    (pruneCalls calls now).length ≤ countInWindow calls now := by
  unfold pruneCalls countInWindow
  rw [← List.countP_eq_length_filter]
  apply List.countP_mono_left
  intro x hx hpx
  have h1 : now - x < TWELVE_WINDOW := by
    simpa using hpx
  have h2 : x ≤ now := h x hx
  simp only [decide_eq_true_eq]
  constructor
  · linarith
  · exact h2

/-- One admission preserves the rate-limiter invariant. -/
lemma admitStep_preserves (calls : List ℚ) (tprev : ℚ) (e : AdmitEvent)
    (hInv : RateState calls tprev) (h1 : tprev ≤ e.now) (h2 : e.now ≤ e.tAppend)
    (h3 : TWELVE_RATE_LIMIT ≤ (pruneCalls calls e.now).length →
      ∀ h₀ ∈ (pruneCalls calls e.now).head?,
        h₀ + TWELVE_WINDOW + 1/10 ≤ e.tAppend) :
    RateState (admitStep calls e) e.tAppend := by
  obtain ⟨hsort, hpast, hwin⟩ := hInv
  have hmem_le : ∀ x ∈ pruneCalls calls e.now, x ≤ e.tAppend := by
    intro x hx
    have := hpast x (List.mem_of_mem_filter hx)
    linarith
  refine ⟨?_, ?_, ?_⟩
  · -- sortedness of pruned ++ [tAppend]
    rw [admitStep]
    refine List.pairwise_append.mpr
      ⟨List.Pairwise.filter _ hsort, List.pairwise_singleton _ _, ?_⟩
    intro x hx y hy
    rw [List.mem_singleton] at hy
    subst hy
    exact hmem_le x hx
  · intro x hx
    rw [admitStep, List.mem_append] at hx
    rcases hx with hx | hx
    · exact hmem_le x hx
    · rw [List.mem_singleton] at hx
      subst hx
      exact le_refl _
  · intro u
    rw [admitStep]
    unfold countInWindow
    rw [List.countP_append]
    by_cases hpred : u - TWELVE_WINDOW < e.tAppend ∧ e.tAppend ≤ u
    · -- the new timestamp is inside the window ending at u
      have hsingle : List.countP (fun x => decide (u - TWELVE_WINDOW < x ∧ x ≤ u))
          [e.tAppend] = 1 := by
        simp [List.countP_cons, hpred]
      rw [hsingle]
      have hn8 : (pruneCalls calls e.now).length ≤ TWELVE_RATE_LIMIT := by
        calc (pruneCalls calls e.now).length
            ≤ countInWindow calls e.now := pruneCalls_length_le calls e.now
              (fun x hx => le_trans (hpast x hx) h1)
          _ ≤ TWELVE_RATE_LIMIT := hwin e.now
      by_cases hfull : TWELVE_RATE_LIMIT ≤ (pruneCalls calls e.now).length
      · -- the pruned list was full: the sleep pushed the append past
        -- oldest + window, so the oldest drops out of every window
        -- that contains the new timestamp
        have hlen : (pruneCalls calls e.now).length = TWELVE_RATE_LIMIT :=
          le_antisymm hn8 hfull
        match hp : pruneCalls calls e.now with
        | [] =>
            rw [hp] at hlen
            simp [TWELVE_RATE_LIMIT] at hlen
        | h₀ :: rest =>
            have hsleep : h₀ + TWELVE_WINDOW + 1/10 ≤ e.tAppend := by
              apply h3 (by rw [hp] at hfull ⊢; exact hfull)
              rw [hp]
              simp
            have hdrop : ¬(u - TWELVE_WINDOW < h₀ ∧ h₀ ≤ u) := by
              rintro ⟨hlt, -⟩
              have : e.tAppend ≤ u := hpred.2
              linarith
            have hfalse : (decide (u - TWELVE_WINDOW < h₀ ∧ h₀ ≤ u)) = false := by
              simpa using hdrop
            rw [List.countP_cons, hfalse, if_neg Bool.false_ne_true]
            have hrest : List.countP (fun x => decide (u - TWELVE_WINDOW < x ∧ x ≤ u))
                rest ≤ rest.length := List.countP_le_length _
            have hrlen : rest.length + 1 = TWELVE_RATE_LIMIT := by
              rw [hp] at hlen
              simpa using hlen
            omega
      · -- the pruned list was not full
        push_neg at hfull
        have hA : List.countP (fun x => decide (u - TWELVE_WINDOW < x ∧ x ≤ u))
            (pruneCalls calls e.now) ≤ (pruneCalls calls e.now).length :=
          List.countP_le_length _
        omega
    · -- the new timestamp is outside the window ending at u
      have hsingle : List.countP (fun x => decide (u - TWELVE_WINDOW < x ∧ x ≤ u))
          [e.tAppend] = 0 := by
        simp [List.countP_cons, hpred]
      rw [hsingle]
      have := le_trans (countInWindow_prune_le calls e.now u) (hwin u)
      unfold countInWindow at this
      omega

/-- A prefix of a valid trace is valid. -/
lemma validFrom_take (es : List AdmitEvent) :
    ∀ (n : ℕ) (calls : List ℚ) (tprev : ℚ),
      validFrom calls tprev es → validFrom calls tprev (es.take n) := by
  induction es with
  | nil =>
      intro n calls tprev h
      simpa using h
  | cons e rest ih =>
      intro n calls tprev h
      match n with
      | 0 => trivial
      | n + 1 =>
          obtain ⟨h1, h2, h3, hrest⟩ := h
          exact ⟨h1, h2, h3, ih n _ _ hrest⟩

/-- Running a valid trace from an invariant-satisfying state lands in an
invariant-satisfying state. -/
lemma runAdmits_state : ∀ (es : List AdmitEvent) (calls : List ℚ) (tprev : ℚ),
    RateState calls tprev → validFrom calls tprev es →
    ∃ t, RateState (runAdmits calls es) t := by
  intro es
  induction es with
  | nil =>
      intro calls tprev h _
      exact ⟨tprev, h⟩
  | cons e rest ih =>
      intro calls tprev h hv
      obtain ⟨h1, h2, h3, hrest⟩ := hv
      exact ih _ _ (admitStep_preserves calls tprev e h h1 h2 h3) hrest

/-- C2: starting from an empty call list, along any valid sequence of
admissions (monotone clock reads; when the pruned list is full the
append is delayed past `oldest + TWELVE_WINDOW + 0.1` by line 130's
sleep, all under the lock), after every admission the number of
recorded call timestamps inside **any** trailing `TWELVE_WINDOW`-second
interval never exceeds `TWELVE_RATE_LIMIT = 8`. -/
theorem rate_limiter_window_bound (t0 : ℚ) (es : List AdmitEvent)
    (hv : validFrom [] t0 es) (n : ℕ) (u : ℚ) :
    countInWindow (runAdmits [] (es.take n)) u ≤ TWELVE_RATE_LIMIT := by
  have hvn := validFrom_take es n [] t0 hv
  have hstate : RateState ([] : List ℚ) t0 := by
    refine ⟨List.sorted_nil, ?_, ?_⟩
    · intro x hx
      simp at hx
    · intro u
      simp [countInWindow]
  obtain ⟨t, ht⟩ := runAdmits_state (es.take n) [] t0 hstate hvn
  exact ht.2.2 u

/-- Witness for `rate_limiter_window_bound`: a single admission at time
0 from the empty state. -/
theorem rate_limiter_window_bound_witness :
    validFrom [] 0 [⟨0, 0⟩] ∧
    countInWindow (runAdmits [] (([⟨0, 0⟩] : List AdmitEvent).take 1)) 0 ≤
      TWELVE_RATE_LIMIT := by
  have hv : validFrom [] 0 [⟨0, 0⟩] := by
    refine ⟨le_refl 0, le_refl 0, ?_, trivial⟩
    intro hfull
    simp [pruneCalls, TWELVE_RATE_LIMIT] at hfull
  exact ⟨hv, rate_limiter_window_bound 0 [⟨0, 0⟩] hv 1 0⟩

end RateLimiterTheorems
